import Mathlib

/-!
Verification of the retrieval-and-reranking pipeline of
`langroid/agent/special/doc_chat_agent.py` (class `DocChatAgent`).

The Python code is shallowly embedded: pure fragments become Lean
functions over an explicit data model, external collaborators (vector
store, embedding model, BM25/fuzzy helpers, LLM) are passed in as
parameters or modelled from the specification where the repository code
is not available under `src/`, and Python exceptions are modelled with
`Except`/`Option` results.
-/

namespace DocChat

/-- Modelled from the spec: the `DocMetaData` record of `langroid.mytypes`
(not under `src/`): a stable unique `id`, a `source`, optional ordered
`window_ids` referencing neighboring chunks, and arbitrary extra fields. -/
structure DocMetaData where
  id : String
  source : String
  window_ids : List String
  extra : List (String × String)
deriving DecidableEq, Repr, Inhabited

/-- Modelled from the spec: the `Document` model of `langroid.mytypes`
(not under `src/`): `content` plus `metadata`.  Subclasses may add
further pydantic fields; `extraFields` holds those (name, value) pairs,
so a document of the base class has `extraFields = []` and the pydantic
field-name set `__fields__` is exactly `{content, metadata}` iff
`extraFields` is empty. -/
structure Document where
  content : String
  metadata : DocMetaData
  extraFields : List (String × String)
deriving DecidableEq, Repr, Inhabited

/-- Modelled from the spec: `Document.id()` of `langroid.mytypes` returns
the stable unique chunk id stored in the metadata. -/
def Document.docId (d : Document) : String := d.metadata.id

/-- The parts of `langroid.agent.chat_document.ChatDocument` the pipeline
produces: answer text and the source citation stored in its metadata. -/
structure ChatDocument where
  content : String
  source : String
deriving DecidableEq, Repr, Inhabited

/-- Modelled from the spec: the fixed "no answer found" sentinel string
`NO_ANSWER` of `langroid.utils.constants` (not under `src/`). -/
def NO_ANSWER : String := "DO-NOT-KNOW"

/-! ### Python dict semantics

`get_relevant_chunks` deduplicates via Python dict comprehensions
(`{d.id(): (d, s) for d, s in docs_and_scores}` and
`{p.id(): p for p in passages}`) followed by `.values()`.  A Python dict
keeps keys in first-insertion order while a repeated key overwrites the
stored value in place (last write wins).  We model a dict as an
association list with exactly that insertion behavior. -/

/-- One Python dict assignment `m[k] = v`: overwrite in place if the key
is present, else append the new binding. -/
def pyDictInsert (m : List (String × α)) (k : String) (v : α) : List (String × α) :=
  if m.any (fun p => p.1 = k) then
    m.map (fun p => if p.1 = k then (k, v) else p)
  else m ++ [(k, v)]

/-- Build a Python dict from a list of key/value pairs, in order. -/
def pyDictOfList (l : List (String × α)) : List (String × α) :=
  l.foldl (fun m p => pyDictInsert m p.1 p.2) []

/-- Python `.values()` of the dict built from `l` (a Python
`list({...}.values())`). -/
def pyDictValues (l : List (String × α)) : List α :=
  (pyDictOfList l).map Prod.snd

/-- The keys of an association list. -/
def keysOf (m : List (String × α)) : List String := m.map Prod.fst

/-! ### Configuration and external collaborators -/

/-- The configuration fields of `DocChatAgentConfig` the retrieval
pipeline reads (`n_similar_docs` lives in `config.parsing`). -/
structure Config where
  n_similar_docs : ℕ
  cross_encoder_reranking_model : String
  use_bm25_search : Bool
  use_fuzzy_match : Bool
  rerank_diversity : Bool
  rerank_periphery : Bool
  n_neighbor_chunks : ℕ
  n_fuzzy_neighbor_words : ℕ
  retrieve_only : Bool

/-- Modelled from the spec: the vector-store collaborator (`self.vecdb`,
`langroid.vector_store`, not under `src/`).  `semantic` is
`similar_texts_with_scores` (the configured filter is baked in);
`expand` describes `vecdb.add_context_window`'s content rewrite: per the
spec each document's content is replaced by the concatenation of up to
`n` neighbors on each side plus itself, metadata and score unchanged;
`cosSim` is the cosine similarity (normalized embedding dot product) of
the embeddings of two content strings, the numeric kernel of
`rerank_with_diversity`. -/
structure VecDB where
  semantic : String → ℕ → List (Document × ℚ)
  expand : ℕ → Document → String
  cosSim : String → String → ℚ

/-- Modelled from the spec: `vecdb.add_context_window(docs_scores, n)`
replaces each document's content with its window-merged content and
keeps metadata and score unchanged (spec sections 4.4 and 6). -/
def vecdbCtxWindow (v : VecDB) (ds : List (Document × ℚ)) (n : ℕ) : List (Document × ℚ) :=
  ds.map (fun p => ({ p.1 with content := v.expand n p.1 }, p.2))

/-- The mutable collaborator state a `DocChatAgent` reads during
retrieval: the optional vector store, the two parallel chunk corpora,
and the external search/scoring helpers.  `bm25` is
`find_closest_matches_with_bm25(docs, docs_clean, query, k)`; `fuzzy` is
`find_fuzzy_matches_in_docs(query, docs, docs_clean, k, words_before,
words_after)` (both in `langroid.parsing.search`, not under `src/`);
`cePredict query content` is the cross-encoder relevance logit of a
`(query, passage-content)` pair, produced by the external
`CrossEncoder.predict`. -/
structure Env where
  vecdb : Option VecDB
  chunked_docs : Option (List Document)
  chunked_docs_clean : Option (List Document)
  bm25 : List Document → List Document → String → ℕ → List (Document × ℚ)
  fuzzy : String → List Document → List Document → ℕ → ℕ → ℕ → List Document
  cePredict : String → String → ℚ

/-! ### Periphery reranker (`rerank_to_periphery`, lines 960-983) -/

/-- Python slice `l[::2]`: the elements at even 0-based positions. -/
def everyOther : List α → List α
  | [] => []
  | [a] => [a]
  | a :: _ :: rest => a :: everyOther rest

/-- Model of `rerank_to_periphery`: `odds = passages[::2]`,
`evens = passages[1::2][::-1]`, return `odds + evens`. -/
def rerank_to_periphery (passages : List Document) : List Document :=
  everyOther passages ++ (everyOther (passages.drop 1)).reverse

/-- Specification-side description: the elements of `l` sitting at even
0-based positions, stated by indexing. -/
def evenPosElems (l : List α) : List α :=
  (List.range l.length).filterMap (fun i => if i % 2 = 0 then l[i]? else none)

/-- Specification-side description: the elements of `l` sitting at odd
0-based positions, stated by indexing. -/
def oddPosElems (l : List α) : List α :=
  (List.range l.length).filterMap (fun i => if i % 2 = 1 then l[i]? else none)

/-- A plain document used in concrete examples. -/
def exDoc (s : String) : Document := ⟨s, ⟨s, s, [], []⟩, []⟩

/-- A concrete vector store used in concrete examples: no semantic hits,
window expansion keeps each content, all-zero cosine similarity. -/
def exVecDB : VecDB := ⟨fun _ _ => [], fun _ d => d.content, fun _ _ => 0⟩

/-- A concrete document carrying a field beyond content/metadata (as a
pydantic `Document` subclass instance would). -/
def exDocExtra (s : String) : Document := ⟨s, ⟨s, s, [], []⟩, [("tag", "x")]⟩

/-- A concrete vector store whose window expansion rewrites contents. -/
def exVecDBExpand : VecDB := ⟨fun _ _ => [], fun _ _ => "EXPANDED", fun _ _ => 0⟩

/-- A concrete configuration with window expansion enabled
(`n_neighbor_chunks = 1`). -/
def exCfgCtx : Config := ⟨3, "", true, true, true, true, 1, 100, false⟩

/-- A concrete configuration with defaults convenient for examples:
no cross-encoder, no BM25/fuzzy, no diversity, periphery on. -/
def exCfg : Config := ⟨1, "", false, false, false, true, 0, 100, false⟩

/-- A concrete environment whose chunk corpora are empty lists. -/
def exEnvEmptyCorpus : Env :=
  ⟨some exVecDB, some [], some [], fun _ _ _ _ => [], fun _ _ _ _ _ _ => [],
    fun _ _ => 0⟩

/-- A concrete environment with no vector store configured. -/
def exEnvNoVecdb : Env :=
  ⟨none, none, none, fun _ _ _ _ => [], fun _ _ _ _ _ _ => [], fun _ _ => 0⟩

/-- Two concrete documents sharing the id `X`. -/
def exDocDupFirst : Document := ⟨"a1", ⟨"X", "s", [], []⟩, []⟩

/-- The later hit with the same id `X` (its pair must win). -/
def exDocDup : Document := ⟨"a2", ⟨"X", "s", [], []⟩, []⟩

/-- A concrete environment whose semantic search returns two hits with
the same document id. -/
def exEnvDup : Env :=
  ⟨some ⟨fun _ _ => [(exDocDupFirst, 1), (exDocDup, 2)], fun _ d => d.content,
      fun _ _ => 0⟩,
    none, none, fun _ _ _ _ => [], fun _ _ _ _ _ _ => [], fun _ _ => 0⟩

/-! ### Diversity reranker (`rerank_with_diversity`, lines 914-958) -/

/-- Model of `avg_similarity_to_result(i, result)`: average similarity of candidate
`i` to the already selected indices. -/
def avgSimilarityToResult (sim : ℕ → ℕ → ℚ) (i : ℕ) (result : List ℕ) : ℚ :=
  ((result.map (fun j => sim i j)).sum) / (result.length : ℚ)

/-- Python `min(a :: l, key=f)`: the first element attaining the minimal
key (a strictly smaller key is needed to displace the current best). -/
def pyMinBy (f : ℕ → ℚ) (a : ℕ) (l : List ℕ) : ℕ :=
  l.foldl (fun b i => if f i < f b then i else b) a

/-- The greedy selection loop (`while indices:`) of
`rerank_with_diversity`, with explicit fuel: each iteration removes the
chosen index, so `indices.length` bounds the iteration count. -/
def selectDiverse (sim : ℕ → ℕ → ℚ) : ℕ → List ℕ → List ℕ → List ℕ
  | 0, _, result => result
  | _ + 1, [], result => result
  | fuel + 1, i :: is, result =>
    selectDiverse sim fuel
      ((i :: is).erase (pyMinBy (fun j => avgSimilarityToResult sim j result) i is))
      (result ++ [pyMinBy (fun j => avgSimilarityToResult sim j result) i is])

/-- The pairwise cosine-similarity matrix computed from the embeddings of
the passages' contents (`embs_arr[i] @ embs_arr[j]` normalized). -/
def simOf (v : VecDB) (passages : List Document) : ℕ → ℕ → ℚ :=
  fun i j => v.cosSim (passages.getD i default).content (passages.getD j default).content

/-- The greedy visiting order of `rerank_with_diversity`:
`indices = list(range(len(passages)))`, `result = [indices.pop(0)]`,
then the `while` loop (`selectDiverse`). -/
def diversityOrder (v : VecDB) (passages : List Document) : List ℕ :=
  selectDiverse (simOf v passages) (passages.length - 1)
    ((List.range passages.length).drop 1) [0]

/-- Model of `rerank_with_diversity`.  Here `none` models the uncaught `IndexError`
raised by `indices.pop(0)` on an empty input; the `Bool` records whether
the "No vecdb" warning path was taken (input returned unchanged). -/
def rerank_with_diversity (vecdb : Option VecDB) (passages : List Document) :
    Option (List Document × Bool) :=
  match vecdb with
  | none => some (passages, true)
  | some v =>
    match passages with
    | [] => none
    | _ :: _ =>
      some ((diversityOrder v passages).map (fun i => passages.getD i default), false)

/-! ### Cross-encoder reranker (`rerank_with_cross_encoder`, lines 884-912) -/

/-- The logistic squashing `1.0 / (1 + np.exp(-score))` applied to each
cross-encoder logit (line 902), idealizing floating point as reals. -/
noncomputable def sigmoid (x : ℚ) : ℝ := 1 / (1 + Real.exp (-(x : ℝ)))

/-- The order used to model Python's
`sorted(zip(scores, passages), key=lambda x: x[0], reverse=True)`:
descending score with ties broken by ascending original position.  A
stable sort's output is the unique permutation of the position-tagged
input sorted this way, so sorting by `ceLE` is a faithful model of
CPython's stable sort with `reverse=True` (tied elements keep their
original relative order). -/
def ceLE (a b : ℕ × ℝ × Document) : Prop :=
  b.2.1 < a.2.1 ∨ (a.2.1 = b.2.1 ∧ a.1 ≤ b.1)

/-- The position-tagged, sigmoid-scored and sorted passage list built by
`rerank_with_cross_encoder` (lines 900-908) before truncation. -/
noncomputable def ceSorted (predict : String → ℚ) (passages : List Document) :
    List (ℕ × ℝ × Document) :=
  @List.insertionSort _ ceLE (Classical.decRel _)
    ((passages.map (fun p => (sigmoid (predict p.content), p))).enum)

/-- Model of `rerank_with_cross_encoder`: score each passage with the external
cross-encoder (`predict content` is the logit of the query/content
pair), squash through the logistic function, sort descending (stable)
and keep the top `n = config.parsing.n_similar_docs` passages. -/
noncomputable def rerank_with_cross_encoder (predict : String → ℚ) (n : ℕ)
    (passages : List Document) : List Document :=
  ((ceSorted predict passages).map (fun a => a.2.2)).take n

/-! ### Context window expander (`add_context_window`, lines 985-1012) -/

/-- Model of `add_context_window`: identity when no vecdb is set or
`n_neighbor_chunks == 0`; `[]` on empty input; identity when the first
document's pydantic field set differs from `{content, metadata}`
(line 1007 inspects only `docs_scores[0][0].__fields__`); otherwise the
external `vecdb.add_context_window` runs. -/
def add_context_window (cfg : Config) (vecdb : Option VecDB)
    (docs_scores : List (Document × ℚ)) : List (Document × ℚ) :=
  match vecdb with
  | none => docs_scores
  | some v =>
    if cfg.n_neighbor_chunks = 0 then docs_scores
    else
      match docs_scores with
      | [] => []
      | (d, _) :: _ =>
        if d.extraFields.isEmpty then vecdbCtxWindow v docs_scores cfg.n_neighbor_chunks
        else docs_scores

/-! ### Lexical and fuzzy matchers (lines 844-882) -/

/-- Model of `get_similar_chunks_bm25`: fail soft (empty result plus warning,
recorded in the `Bool`) when either corpus is missing (`None`) or has
length zero, else defer to the external
`find_closest_matches_with_bm25`. -/
def get_similar_chunks_bm25 (env : Env) (cfg : Config) (query : String)
    (multiple : ℕ) : List (Document × ℚ) × Bool :=
  match env.chunked_docs with
  | none => ([], true)
  | some cd =>
    if cd.length = 0 then ([], true)
    else
      match env.chunked_docs_clean with
      | none => ([], true)
      | some cdc =>
        if cdc.length = 0 then ([], true)
        else (env.bm25 cd cdc query (cfg.n_similar_docs * multiple), false)

/-- Model of `get_fuzzy_matches`: warn and return `[]` only when a corpus is
missing (`None`); an empty list corpus is passed straight to the
external `find_fuzzy_matches_in_docs` (the code has no length check
here, unlike the BM25 path). -/
def get_fuzzy_matches (env : Env) (cfg : Config) (query : String)
    (multiple : ℕ) : List Document × Bool :=
  match env.chunked_docs with
  | none => ([], true)
  | some cd =>
    match env.chunked_docs_clean with
    | none => ([], true)
    | some cdc =>
      (env.fuzzy query cd cdc (cfg.n_similar_docs * multiple)
        cfg.n_fuzzy_neighbor_words cfg.n_fuzzy_neighbor_words, false)

/-! ### Retrieval orchestrator (`get_relevant_chunks`, lines 1044-1130) -/

/-- Line 1088: `id2doc_score = {d.id(): (d, s) for d, s in docs_and_scores}`
followed by `list(id2doc_score.values())`. -/
def mergeSemanticHits (hits : List (Document × ℚ)) : List (Document × ℚ) :=
  pyDictValues (hits.map (fun ds => (ds.1.docId, ds)))

/-- Line 1105: `id2passage = {p.id(): p for p in passages}` followed by
`list(id2passage.values())`. -/
def dedupPassages (passages : List Document) : List Document :=
  pyDictValues (passages.map (fun p => (p.docId, p)))

/-- Lines 1081-1086: semantic hits for the query and every proxy,
concatenated in order. -/
def semanticHits (vdb : VecDB) (cfg : Config) (query : String)
    (query_proxies : List String) (retrieval_multiple : ℕ) : List (Document × ℚ) :=
  ((query :: query_proxies).map
    (fun q => vdb.semantic q (cfg.n_similar_docs * retrieval_multiple))).flatten

/-- Lines 1081-1106: gather semantic, BM25 and fuzzy passages and
deduplicate by document id. -/
def grcCollect (cfg : Config) (env : Env) (vdb : VecDB) (query : String)
    (query_proxies : List String) (retrieval_multiple : ℕ) : List Document :=
  dedupPassages
    (((mergeSemanticHits
          (semanticHits vdb cfg query query_proxies retrieval_multiple)).map Prod.fst
        ++ (if cfg.use_bm25_search then
              (get_similar_chunks_bm25 env cfg query retrieval_multiple).1.map Prod.fst
            else []))
      ++ (if cfg.use_fuzzy_match then
            (get_fuzzy_matches env cfg query retrieval_multiple).1
          else []))

/-- Lines 1111-1113: wrap the passages with placeholder score `0.0`, run
`add_context_window`, and project the documents back out. -/
def grcWithCtx (cfg : Config) (env : Env) (passages : List Document) : List Document :=
  (add_context_window cfg env.vecdb (passages.map (fun p => (p, (0 : ℚ))))).map Prod.fst

/-- Lines 1118-1119: optional cross-encoder reranking. -/
noncomputable def grcReranked (cfg : Config) (env : Env) (query : String)
    (passages : List Document) : List Document :=
  if cfg.cross_encoder_reranking_model ≠ "" then
    rerank_with_cross_encoder (env.cePredict query) cfg.n_similar_docs
      (grcWithCtx cfg env passages)
  else grcWithCtx cfg env passages

/-- Lines 1111-1130: context-window expansion, optional cross-encoder
reranking, optional diversity reranking (whose empty-input `IndexError`
propagates) and optional periphery reordering. -/
noncomputable def grcPost (cfg : Config) (env : Env) (query : String)
    (passages : List Document) : Except String (List Document) :=
  match (if cfg.rerank_diversity then
      rerank_with_diversity env.vecdb (grcReranked cfg env query passages)
    else some (grcReranked cfg env query passages, false)) with
  | none => Except.error "IndexError: pop from empty list"
  | some (ps, _) =>
    Except.ok (if cfg.rerank_periphery then rerank_to_periphery ps else ps)

/-- Model of `get_relevant_chunks`: raise `ValueError` when no vecdb is set
(line 1078), over-fetch by `retrieval_multiple = 3` when cross-encoder
reranking is configured (line 1075), merge and deduplicate hits,
short-circuit on an empty passage list (line 1108), then run the
post-processing stages. -/
noncomputable def get_relevant_chunks (cfg : Config) (env : Env) (query : String)
    (query_proxies : List String) : Except String (List Document) :=
  match env.vecdb with
  | none => Except.error "VecDB not set"
  | some vdb =>
    let passages := grcCollect cfg env vdb query query_proxies
      (if cfg.cross_encoder_reranking_model = "" then 1 else 3)
    if passages.isEmpty then Except.ok []
    else grcPost cfg env query passages

/-! ### Answer parsing (`get_summary_answer`, lines 785-808) -/

/-- Python `str.strip()`: drop leading and trailing whitespace. -/
def strip (s : List Char) : List Char :=
  ((s.dropWhile Char.isWhitespace).reverse.dropWhile Char.isWhitespace).reverse

/-- The literal token `SOURCE` tested by `startswith` (line 788). -/
def sourceTok : List Char := "SOURCE".toList

/-- The delimiter `SOURCE:` split upon (line 794). -/
def sourceColon : List Char := "SOURCE:".toList

/-- Python `s.split(sep, maxsplit=1)` restricted to what the parser
needs: `some (before, after)` around the first occurrence of `sep`, or
`none` when `sep` does not occur. -/
def findSplit (sep : List Char) : List Char → Option (List Char × List Char)
  | [] => if sep.isPrefixOf ([] : List Char) then some ([], []) else none
  | c :: rest =>
    if sep.isPrefixOf (c :: rest) then some ([], (c :: rest).drop sep.length)
    else
      match findSplit sep rest with
      | some (b, a) => some (c :: b, a)
      | none => none

/-- Lines 788-800 of `get_summary_answer`, parsing the stripped LLM
response `final_answer` into `(content, sources)`. -/
def parseFinalAnswer (final_answer : List Char) : List Char × List Char :=
  if sourceTok.isPrefixOf final_answer then (final_answer, final_answer)
  else
    match findSplit sourceColon final_answer with
    | some (b, a) => (strip b, strip a)
    | none => (final_answer, [])

/-- Line 785 plus the parse: `final_answer = answer_doc.content.strip()`
and then lines 788-800. -/
def parseSummaryResponse (response : List Char) : List Char × List Char :=
  parseFinalAnswer (strip response)

/-! ### Verbatim extractor (`get_verbatim_extracts`, lines 1183-1235) -/

/-- Lines 1227-1235: zip the passages with the batch extraction results
(order preserving, a failed call yields `NO_ANSWER`), drop sentinel or
empty extracts, and for each survivor value-copy the passage replacing
only `content` (the loop's `continue`/append is the `filterMap`). -/
def get_verbatim_extracts (passages : List Document) (extracts : List String) :
    List Document :=
  (passages.zip extracts).filterMap (fun pe =>
    if pe.2 = NO_ANSWER ∨ pe.2.length = 0 then none
    else some { pe.1 with content := pe.2 })

/-! ### Answer synthesis driver (`answer_from_docs`, lines 1237-1283) -/

/-- Model of `answer_from_docs`, with the retrieval/extraction result passed in as
`extracts` and the final LLM synthesis call abstracted as `synthesize`.
The `Bool` records whether the answer-synthesis LLM call was made.  The
zero-extract short circuit (lines 1256-1257) runs before the LLM-set
check, the `retrieve_only` branch joins extract contents without
calling the LLM. -/
def answer_from_docs (cfg : Config) (llmSet : Bool) (extracts : List Document)
    (synthesize : List Document → ChatDocument) : Except String (ChatDocument × Bool) :=
  if extracts.isEmpty then Except.ok (⟨NO_ANSWER, "None"⟩, false)
  else if llmSet = false then Except.error "LLM not set"
  else if cfg.retrieve_only then
    Except.ok (⟨String.intercalate "\n\n" (extracts.map (fun e => e.content)),
      (extracts.headD default).metadata.source⟩, false)
  else Except.ok (synthesize extracts, true)

theorem keysOf_pyDictInsert (m : List (String × α)) (k : String) (v : α) :
    (m.any (fun p => p.1 = k) → keysOf (pyDictInsert m k v) = keysOf m) ∧
    (¬ m.any (fun p => p.1 = k) → keysOf (pyDictInsert m k v) = keysOf m ++ [k]) := by
  constructor
  · intro h
    simp only [pyDictInsert, if_pos h, keysOf, List.map_map]
    apply List.map_congr_left
    intro p _
    by_cases hp : p.1 = k <;> simp [hp]
  · intro h
    simp [pyDictInsert, if_neg h, keysOf]

theorem nodup_keys_pyDictInsert (m : List (String × α)) (k : String) (v : α)
    (h : (keysOf m).Nodup) : (keysOf (pyDictInsert m k v)).Nodup := by
  by_cases hmem : m.any (fun p => p.1 = k)
  · rw [(keysOf_pyDictInsert m k v).1 hmem]; exact h
  · rw [(keysOf_pyDictInsert m k v).2 hmem]
    rw [List.nodup_append]
    refine ⟨h, List.nodup_singleton k, ?_⟩
    intro x hx hxk
    simp only [List.mem_singleton] at hxk
    subst hxk
    simp only [List.any_eq_true, not_exists, not_and, decide_eq_true_eq] at hmem
    obtain ⟨p, hp, hpk⟩ := List.mem_map.mp hx
    exact hmem p hp hpk

/-- Every pair of the built dict keeps the key/value coupling `p.1 = f p.2`
when all inserted pairs have it. -/
theorem pyDict_keyed (f : α → String) :
    ∀ (l : List (String × α)) (m : List (String × α)),
      (∀ p ∈ m, p.1 = f p.2) → (∀ p ∈ l, p.1 = f p.2) →
      ∀ p ∈ l.foldl (fun m p => pyDictInsert m p.1 p.2) m, p.1 = f p.2
  | [], m, hm, _, p, hp => hm p hp
  | q :: l, m, hm, hl, p, hp => by
    refine pyDict_keyed f l (pyDictInsert m q.1 q.2) ?_ (fun p hp => hl p (.tail _ hp)) p hp
    intro p' hp'
    unfold pyDictInsert at hp'
    by_cases hmem : m.any (fun r => r.1 = q.1)
    · rw [if_pos hmem] at hp'
      obtain ⟨r, hr, hrp⟩ := List.mem_map.mp hp'
      by_cases hrq : r.1 = q.1
      · rw [if_pos hrq] at hrp
        subst hrp
        exact hl q (.head _)
      · rw [if_neg hrq] at hrp
        subst hrp
        exact hm r hr
    · rw [if_neg hmem] at hp'
      rcases List.mem_append.mp hp' with h | h
      · exact hm p' h
      · simp only [List.mem_singleton] at h
        subst h
        exact hl q (.head _)

theorem nodup_keys_pyDictOfList_aux :
    ∀ (l : List (String × α)) (m : List (String × α)),
      (keysOf m).Nodup →
      (keysOf (l.foldl (fun m p => pyDictInsert m p.1 p.2) m)).Nodup
  | [], _, hm => hm
  | q :: l, m, hm =>
    nodup_keys_pyDictOfList_aux l (pyDictInsert m q.1 q.2)
      (nodup_keys_pyDictInsert m q.1 q.2 hm)

theorem nodup_keys_pyDictOfList (l : List (String × α)) :
    (keysOf (pyDictOfList l)).Nodup :=
  nodup_keys_pyDictOfList_aux l [] List.nodup_nil

/-- Deduplicating a list keyed by `f` yields values whose `f`-images are
pairwise distinct: the output has at most one entry per key. -/
theorem pyDictValues_keyed_nodup (f : α → String) (l : List α) :
    ((pyDictValues (l.map (fun v => (f v, v)))).map f).Nodup := by
  have hkeyed : ∀ p ∈ pyDictOfList (l.map (fun v => (f v, v))), p.1 = f p.2 := by
    refine pyDict_keyed f _ [] (by simp) ?_
    intro p hp
    obtain ⟨v, _, hv⟩ := List.mem_map.mp hp
    subst hv
    rfl
  have hnd := nodup_keys_pyDictOfList (l.map (fun v => (f v, v)))
  have : (pyDictValues (l.map (fun v => (f v, v)))).map f
      = keysOf (pyDictOfList (l.map (fun v => (f v, v)))) := by
    simp only [pyDictValues, keysOf, List.map_map]
    apply List.map_congr_left
    intro p hp
    exact (hkeyed p hp).symm
  rw [this]
  exact hnd

theorem filter_eq_nil_of_no_key (m : List (String × α)) (k : String)
    (h : ∀ p ∈ m, p.1 ≠ k) : m.filter (fun p => p.1 = k) = [] := by
  apply List.filter_eq_nil_iff.mpr
  intro p hp
  simpa using h p hp

/-- Filtering the in-place update of key `k` over a key-nodup list. -/
theorem filter_map_update_self (k : String) (v : α) :
    ∀ (t : List (String × α)), (keysOf t).Nodup →
      (t.map (fun p => if p.1 = k then (k, v) else p)).filter (fun p => p.1 = k)
        = if t.any (fun p => p.1 = k) then [(k, v)] else []
  | [], _ => by simp
  | q :: t, hnd => by
    have hndt : (keysOf t).Nodup := by
      simp only [keysOf, List.map_cons, List.nodup_cons] at hnd
      exact hnd.2
    by_cases hq : q.1 = k
    · have hknt : k ∉ keysOf t := by
        simp only [keysOf, List.map_cons, List.nodup_cons] at hnd
        rw [hq] at hnd
        exact hnd.1
      have ht : ∀ p ∈ t, p.1 ≠ k := by
        intro p hp hpk
        exact hknt (List.mem_map.mpr ⟨p, hp, hpk⟩)
      have hmapt : t.map (fun p => if p.1 = k then (k, v) else p) = t := by
        conv_rhs => rw [← List.map_id t]
        apply List.map_congr_left
        intro p hp
        rw [if_neg (ht p hp)]
        rfl
      rw [List.map_cons, if_pos hq, hmapt]
      have hany : (q :: t).any (fun p => p.1 = k) = true := by
        simp [hq]
      rw [if_pos hany]
      simp only [List.filter_cons, decide_eq_true_eq, if_pos rfl]
      rw [filter_eq_nil_of_no_key t k ht]
      simp
    · rw [List.map_cons, if_neg hq]
      simp only [List.filter_cons, decide_eq_true_eq, if_neg hq]
      rw [filter_map_update_self k v t hndt]
      have : decide (q.1 = k) = false := by simp [hq]
      rw [List.any_cons, this, Bool.false_or]

/-- Updating key `k'` in place does not change the entries filtered at a
different key `k`. -/
theorem filter_map_update_other (k' k : String) (v : α) (hkk : k' ≠ k) :
    ∀ (t : List (String × α)),
      (t.map (fun p => if p.1 = k' then (k', v) else p)).filter (fun p => p.1 = k)
        = t.filter (fun p => p.1 = k)
  | [] => by simp
  | q :: t => by
    rw [List.map_cons]
    by_cases hq : q.1 = k'
    · rw [if_pos hq]
      simp only [List.filter_cons, decide_eq_true_eq]
      rw [if_neg hkk, if_neg (by rw [hq]; exact hkk)]
      exact filter_map_update_other k' k v hkk t
    · rw [if_neg hq]
      simp only [List.filter_cons, decide_eq_true_eq]
      by_cases hqk : q.1 = k
      · rw [if_pos hqk, if_pos hqk, filter_map_update_other k' k v hkk t]
      · rw [if_neg hqk, if_neg hqk]
        exact filter_map_update_other k' k v hkk t

theorem pyDictInsert_filter_eq (m : List (String × α)) (k : String) (v : α)
    (hnd : (keysOf m).Nodup) :
    (pyDictInsert m k v).filter (fun p => p.1 = k) = [(k, v)] := by
  unfold pyDictInsert
  by_cases hmem : m.any (fun p => p.1 = k)
  · rw [if_pos hmem, filter_map_update_self k v m hnd, if_pos hmem]
  · rw [if_neg hmem]
    simp only [List.any_eq_true, decide_eq_true_eq, not_exists, not_and] at hmem
    rw [List.filter_append, filter_eq_nil_of_no_key m k hmem]
    simp

theorem pyDictInsert_filter_ne (m : List (String × α)) (k' k : String) (v : α)
    (hkk : k' ≠ k) :
    (pyDictInsert m k' v).filter (fun p => p.1 = k) = m.filter (fun p => p.1 = k) := by
  unfold pyDictInsert
  by_cases hmem : m.any (fun p => p.1 = k')
  · rw [if_pos hmem, filter_map_update_other k' k v hkk m]
  · rw [if_neg hmem, List.filter_append]
    simp only [List.filter_cons, List.filter_nil, decide_eq_true_eq]
    rw [if_neg hkk]
    simp

/-- Last write wins: after building a Python dict from `l`, the (unique)
entry stored under key `k` is the last pair of `l` carrying that key. -/
theorem pyDictOfList_filter_aux (k : String) :
    ∀ (l m : List (String × α)), (keysOf m).Nodup →
      (l.foldl (fun m p => pyDictInsert m p.1 p.2) m).filter (fun p => p.1 = k)
        = ((l.filter (fun p => p.1 = k)).getLast?).elim
            (m.filter (fun p => p.1 = k)) (fun p => [p])
  | [], m, _ => by simp
  | q :: t, m, hnd => by
    have hnd' : (keysOf (pyDictInsert m q.1 q.2)).Nodup :=
      nodup_keys_pyDictInsert m q.1 q.2 hnd
    have ih := pyDictOfList_filter_aux k t (pyDictInsert m q.1 q.2) hnd'
    simp only [List.foldl_cons]
    rw [ih]
    by_cases hq : q.1 = k
    · have hfq : (pyDictInsert m q.1 q.2).filter (fun p => p.1 = k) = [(k, q.2)] := by
        rw [hq] at *
        exact pyDictInsert_filter_eq m k q.2 hnd
      rw [hfq]
      have hqpair : q = (k, q.2) := by
        cases q with
        | mk a b => simp at hq; rw [hq]
      simp only [List.filter_cons, decide_eq_true_eq, if_pos hq]
      cases ht : t.filter (fun p => p.1 = k) with
      | nil => simp [← hqpair]
      | cons x xs =>
        have : (q :: x :: xs).getLast? = (x :: xs).getLast? := by
          exact List.getLast?_append_cons [q] x xs
        rw [this]
        cases hgl : (x :: xs).getLast? with
        | none => simp at hgl
        | some p => simp
    · have hfq := pyDictInsert_filter_ne m q.1 k q.2 hq
      rw [hfq]
      simp only [List.filter_cons, decide_eq_true_eq, if_neg hq]

theorem pyDictOfList_filter (k : String) (l : List (String × α)) :
    (pyDictOfList l).filter (fun p => p.1 = k)
      = ((l.filter (fun p => p.1 = k)).getLast?).elim [] (fun p => [p]) := by
  have := pyDictOfList_filter_aux k l [] List.nodup_nil
  simpa [pyDictOfList] using this

/-! ### Periphery reranker lemmas -/

theorem everyOther_cons (x : α) (l : List α) :
    everyOther (x :: l) = x :: everyOther (l.drop 1) := by
  cases l <;> rfl

theorem everyOther_append_perm :
    ∀ (l : List α), List.Perm (everyOther l ++ everyOther (l.drop 1)) l
  | [] => by simp [everyOther]
  | [a] => by simp [everyOther]
  | a :: b :: t => by
    have ih := everyOther_append_perm t
    show List.Perm ((a :: everyOther t) ++ everyOther (b :: t)) (a :: b :: t)
    rw [everyOther_cons b t]
    show List.Perm (a :: (everyOther t ++ b :: everyOther (t.drop 1))) (a :: b :: t)
    exact ((List.perm_middle).cons a).trans (((ih).cons b).cons a)

theorem oddPosElems_nil : oddPosElems ([] : List α) = [] := rfl

theorem evenPosElems_cons (a : α) (l : List α) :
    evenPosElems (a :: l) = a :: oddPosElems l := by
  unfold evenPosElems oddPosElems
  rw [List.length_cons, List.range_succ_eq_map]
  show List.filterMap (fun i => if i % 2 = 0 then (a :: l)[i]? else none)
        (0 :: List.map Nat.succ (List.range l.length))
      = a :: List.filterMap (fun i => if i % 2 = 1 then l[i]? else none)
        (List.range l.length)
  rw [List.filterMap_cons]
  norm_num
  apply List.filterMap_congr
  intro i _
  show (if (i + 1) % 2 = 0 then (a :: l)[i + 1]? else none)
      = (if i % 2 = 1 then l[i]? else none)
  rw [List.getElem?_cons_succ]
  by_cases hi : i % 2 = 1
  · rw [if_pos (Nat.succ_mod_two_eq_zero_iff.mpr hi), if_pos hi]
  · rw [if_neg (by rw [Nat.succ_mod_two_eq_zero_iff]; exact hi), if_neg hi]

theorem oddPosElems_cons (a : α) (l : List α) :
    oddPosElems (a :: l) = evenPosElems l := by
  unfold evenPosElems oddPosElems
  rw [List.length_cons, List.range_succ_eq_map]
  show List.filterMap (fun i => if i % 2 = 1 then (a :: l)[i]? else none)
        (0 :: List.map Nat.succ (List.range l.length))
      = List.filterMap (fun i => if i % 2 = 0 then l[i]? else none)
        (List.range l.length)
  rw [List.filterMap_cons]
  norm_num
  apply List.filterMap_congr
  intro i _
  show (if (i + 1) % 2 = 1 then (a :: l)[i + 1]? else none)
      = (if i % 2 = 0 then l[i]? else none)
  rw [List.getElem?_cons_succ]
  by_cases hi : i % 2 = 0
  · rw [if_pos (Nat.succ_mod_two_eq_one_iff.mpr hi), if_pos hi]
  · rw [if_neg (by rw [Nat.succ_mod_two_eq_one_iff]; exact hi), if_neg hi]

theorem everyOther_eq_evenPosElems : ∀ (l : List α), everyOther l = evenPosElems l
  | [] => rfl
  | [a] => by
    rw [evenPosElems_cons, oddPosElems_nil]
    rfl
  | a :: b :: t => by
    rw [evenPosElems_cons, oddPosElems_cons]
    show a :: everyOther t = a :: evenPosElems t
    rw [everyOther_eq_evenPosElems t]

theorem everyOther_drop_eq_oddPosElems (l : List α) :
    everyOther (l.drop 1) = oddPosElems l := by
  cases l with
  | nil => rfl
  | cons a t =>
    rw [List.drop_one, List.tail_cons, oddPosElems_cons]
    exact everyOther_eq_evenPosElems t

/-- C3. `rerank_to_periphery` permutes its input, placing the elements at
even 0-based positions first (in original order) followed by the
elements at odd 0-based positions in reverse order; on the nine-element
list `[A,…,I]` it yields `[A,C,E,G,I,H,F,D,B]`. -/
theorem C3_rerank_to_periphery :
    (∀ l : List Document, List.Perm (rerank_to_periphery l) l) ∧
    (∀ l : List Document,
        rerank_to_periphery l = evenPosElems l ++ (oddPosElems l).reverse) ∧
    rerank_to_periphery
        [exDoc "A", exDoc "B", exDoc "C", exDoc "D", exDoc "E", exDoc "F",
          exDoc "G", exDoc "H", exDoc "I"]
      = [exDoc "A", exDoc "C", exDoc "E", exDoc "G", exDoc "I", exDoc "H",
          exDoc "F", exDoc "D", exDoc "B"] := by
  refine ⟨?_, ?_, by rfl⟩
  · intro l
    have h1 : List.Perm (everyOther l ++ (everyOther (l.drop 1)).reverse)
        (everyOther l ++ everyOther (l.drop 1)) :=
      List.Perm.append_left _ (List.reverse_perm _)
    exact h1.trans (everyOther_append_perm l)
  · intro l
    unfold rerank_to_periphery
    rw [everyOther_eq_evenPosElems, everyOther_drop_eq_oddPosElems]

/-! ### Diversity reranker lemmas -/

theorem pyMinBy_mem (f : ℕ → ℚ) : ∀ (l : List ℕ) (a : ℕ), pyMinBy f a l ∈ a :: l
  | [], a => List.Mem.head _
  | b :: t, a => by
    have ih := pyMinBy_mem f t (if f b < f a then b else a)
    show pyMinBy f (if f b < f a then b else a) t ∈ a :: b :: t
    rcases List.mem_cons.mp ih with h | h
    · rw [h]
      by_cases hb : f b < f a
      · rw [if_pos hb]; exact .tail _ (.head _)
      · rw [if_neg hb]; exact .head _
    · exact .tail _ (.tail _ h)

theorem pyMinBy_le (f : ℕ → ℚ) :
    ∀ (l : List ℕ) (a : ℕ), ∀ x ∈ a :: l, f (pyMinBy f a l) ≤ f x
  | [], a, x, hx => by
    rcases List.mem_cons.mp hx with h | h
    · rw [h]; exact le_refl _
    · simp at h
  | b :: t, a, x, hx => by
    have hstep : f (if f b < f a then b else a) ≤ f a ∧
        f (if f b < f a then b else a) ≤ f b := by
      by_cases hb : f b < f a
      · rw [if_pos hb]; exact ⟨le_of_lt hb, le_refl _⟩
      · rw [if_neg hb]; exact ⟨le_refl _, le_of_not_lt hb⟩
    have hmin_ite : f (pyMinBy f (if f b < f a then b else a) t)
        ≤ f (if f b < f a then b else a) :=
      pyMinBy_le f t _ _ (List.Mem.head _)
    show f (pyMinBy f (if f b < f a then b else a) t) ≤ f x
    rcases List.mem_cons.mp hx with h | h
    · rw [h]; exact hmin_ite.trans hstep.1
    · rcases List.mem_cons.mp h with h' | h'
      · rw [h']; exact hmin_ite.trans hstep.2
      · exact pyMinBy_le f t _ x (.tail _ h')

/-- The loop appends to `result` a permutation of the pending indices. -/
theorem selectDiverse_spec (sim : ℕ → ℕ → ℚ) :
    ∀ (fuel : ℕ) (indices result : List ℕ), indices.length ≤ fuel →
      ∃ tail, selectDiverse sim fuel indices result = result ++ tail ∧
        List.Perm tail indices
  | 0, [], result, _ => ⟨[], by simp [selectDiverse], .nil⟩
  | 0, i :: is, _, h => absurd h (by simp)
  | _ + 1, [], result, _ => ⟨[], by simp [selectDiverse], .nil⟩
  | fuel + 1, i :: is, result, h => by
    have hm : pyMinBy (fun j => avgSimilarityToResult sim j result) i is ∈ i :: is :=
      pyMinBy_mem _ is i
    have hlen : ((i :: is).erase
        (pyMinBy (fun j => avgSimilarityToResult sim j result) i is)).length ≤ fuel := by
      rw [List.length_erase_of_mem hm]
      simp only [List.length_cons] at h ⊢
      omega
    obtain ⟨tail, heq, hperm⟩ := selectDiverse_spec sim fuel _ _ hlen
    refine ⟨pyMinBy (fun j => avgSimilarityToResult sim j result) i is :: tail, ?_, ?_⟩
    · show selectDiverse sim fuel _ _ = _
      rw [heq, List.append_assoc]
      rfl
    · exact (hperm.cons _).trans (List.perm_cons_erase hm).symm

/-- Greedy invariant: from position `result.length` on, every element of
the final list minimizes, over all elements placed at or after its
position, the average similarity to the passages already placed before
it. -/
theorem selectDiverse_greedy (sim : ℕ → ℕ → ℚ) :
    ∀ (fuel : ℕ) (indices result : List ℕ), indices.length ≤ fuel →
      ∀ k, result.length ≤ k →
        ∀ j, k ≤ j → j < (selectDiverse sim fuel indices result).length →
          avgSimilarityToResult sim
              ((selectDiverse sim fuel indices result).getD k 0)
              ((selectDiverse sim fuel indices result).take k)
            ≤ avgSimilarityToResult sim
              ((selectDiverse sim fuel indices result).getD j 0)
              ((selectDiverse sim fuel indices result).take k)
  | 0, [], result, _ => by
    intro k hk j hkj hj
    simp only [selectDiverse] at hj ⊢
    omega
  | 0, i :: is, _, h => absurd h (by simp)
  | _ + 1, [], result, _ => by
    intro k hk j hkj hj
    simp only [selectDiverse] at hj ⊢
    omega
  | fuel + 1, i :: is, result, h => by
    intro k hk j hkj hj
    have hm : pyMinBy (fun j => avgSimilarityToResult sim j result) i is ∈ i :: is :=
      pyMinBy_mem _ is i
    have hlen : ((i :: is).erase
        (pyMinBy (fun j => avgSimilarityToResult sim j result) i is)).length ≤ fuel := by
      rw [List.length_erase_of_mem hm]
      simp only [List.length_cons] at h ⊢
      omega
    have hstep : selectDiverse sim (fuel + 1) (i :: is) result
        = selectDiverse sim fuel
            ((i :: is).erase (pyMinBy (fun j => avgSimilarityToResult sim j result) i is))
            (result ++ [pyMinBy (fun j => avgSimilarityToResult sim j result) i is]) := rfl
    rcases Nat.eq_or_lt_of_le hk with hke | hkl
    · -- k is exactly the position being filled by this iteration
      obtain ⟨tail, heq, hperm⟩ := selectDiverse_spec sim fuel
        ((i :: is).erase (pyMinBy (fun j => avgSimilarityToResult sim j result) i is))
        (result ++ [pyMinBy (fun j => avgSimilarityToResult sim j result) i is]) hlen
      rw [hstep] at hj ⊢
      rw [heq] at hj ⊢
      rw [List.append_assoc] at hj ⊢
      simp only [List.singleton_append] at hj ⊢
      have hk' : k = result.length := hke.symm
      subst hk'
      have htake : (result ++
          (pyMinBy (fun j => avgSimilarityToResult sim j result) i is :: tail)).take
            result.length = result := by
        exact List.take_left result
          (pyMinBy (fun j => avgSimilarityToResult sim j result) i is :: tail)
      have hgetk : (result ++
          (pyMinBy (fun j => avgSimilarityToResult sim j result) i is :: tail)).getD
            result.length 0
          = pyMinBy (fun j => avgSimilarityToResult sim j result) i is := by
        rw [List.getD_append_right _ _ _ _ (le_refl _)]
        simp
      have hgetj : (result ++
          (pyMinBy (fun j => avgSimilarityToResult sim j result) i is :: tail)).getD j 0
          ∈ pyMinBy (fun j => avgSimilarityToResult sim j result) i is :: tail := by
        rw [List.getD_append_right _ _ _ _ (by omega)]
        rw [List.length_append] at hj
        have hbound : j - result.length <
            (pyMinBy (fun j => avgSimilarityToResult sim j result) i is :: tail).length := by
          omega
        rw [List.getD_eq_getElem _ _ hbound]
        exact List.getElem_mem hbound
      rw [htake, hgetk]
      have hmem2 : (result ++
          (pyMinBy (fun j => avgSimilarityToResult sim j result) i is :: tail)).getD j 0
          ∈ i :: is := by
        have hp : List.Perm
            (pyMinBy (fun j => avgSimilarityToResult sim j result) i is :: tail)
            (i :: is) :=
          (hperm.cons _).trans (List.perm_cons_erase hm).symm
        exact hp.mem_iff.mp hgetj
      exact pyMinBy_le (fun j => avgSimilarityToResult sim j result) is i _ hmem2
    · -- the position k was filled by a later iteration: use the IH
      have hk2 : (result ++
          [pyMinBy (fun j => avgSimilarityToResult sim j result) i is]).length ≤ k := by
        simp only [List.length_append, List.length_cons, List.length_nil]
        omega
      rw [hstep] at hj ⊢
      exact selectDiverse_greedy sim fuel _ _ hlen k hk2 j hkj hj

/-! ### Cross-encoder reranker lemmas -/

instance : IsTrans (ℕ × ℝ × Document) ceLE where
  trans a b c hab hbc := by
    rcases hab with h1 | ⟨he1, hi1⟩
    · rcases hbc with h2 | ⟨he2, hi2⟩
      · exact Or.inl (h2.trans h1)
      · exact Or.inl (he2 ▸ h1)
    · rcases hbc with h2 | ⟨he2, hi2⟩
      · exact Or.inl (by rw [he1]; exact h2)
      · exact Or.inr ⟨he1.trans he2, hi1.trans hi2⟩

instance : IsTotal (ℕ × ℝ × Document) ceLE where
  total a b := by
    rcases lt_trichotomy a.2.1 b.2.1 with h | h | h
    · exact Or.inr (Or.inl h)
    · rcases Nat.le_total a.1 b.1 with hi | hi
      · exact Or.inl (Or.inr ⟨h, hi⟩)
      · exact Or.inr (Or.inr ⟨h.symm, hi⟩)
    · exact Or.inl (Or.inl h)

theorem sigmoid_mem (x : ℚ) : 0 ≤ sigmoid x ∧ sigmoid x ≤ 1 := by
  have hpos : (0 : ℝ) < 1 + Real.exp (-(x : ℝ)) := by positivity
  constructor
  · exact le_of_lt (div_pos one_pos hpos)
  · rw [sigmoid, div_le_one hpos]
    nlinarith [Real.exp_pos (-(x : ℝ))]

theorem ceSorted_perm (predict : String → ℚ) (passages : List Document) :
    List.Perm (ceSorted predict passages)
      ((passages.map (fun p => (sigmoid (predict p.content), p))).enum) :=
  @List.perm_insertionSort _ ceLE (Classical.decRel _) _

theorem ceSorted_pairwise (predict : String → ℚ) (passages : List Document) :
    List.Pairwise ceLE (ceSorted predict passages) :=
  @List.sorted_insertionSort _ ceLE (Classical.decRel _) _ _ _

/-- The fully sorted list (before `take n`) permutes the input. -/
theorem ceSorted_output_perm (predict : String → ℚ) (passages : List Document) :
    List.Perm ((ceSorted predict passages).map (fun a => a.2.2)) passages := by
  have h := (ceSorted_perm predict passages).map (fun a : ℕ × ℝ × Document => a.2.2)
  have heq : ((passages.map (fun p => (sigmoid (predict p.content), p))).enum).map
      (fun a : ℕ × ℝ × Document => a.2.2)
      = passages := by
    show ((passages.map (fun p => (sigmoid (predict p.content), p))).enum).map
        (Prod.snd ∘ Prod.snd) = passages
    rw [← List.map_map, List.enum_map_snd, List.map_map]
    have hcomp : ((Prod.snd : ℝ × Document → Document) ∘
        fun p : Document => (sigmoid (predict p.content), p)) = id := by
      funext p
      rfl
    rw [hcomp, List.map_id]
  rw [heq] at h
  exact h

/-- C5. `rerank_with_cross_encoder` squashes each relevance logit through
the logistic function into `[0,1]`, sorts the passages by that score in
descending order with ties kept in original order (descending score,
tie: ascending original position, over a permutation of the scored
input), and truncates to the top `n_similar_docs` passages. -/
theorem C5_rerank_with_cross_encoder (predict : String → ℚ) (n : ℕ)
    (passages : List Document) :
    List.Perm (ceSorted predict passages)
        ((passages.map (fun p => (sigmoid (predict p.content), p))).enum) ∧
    List.Pairwise ceLE (ceSorted predict passages) ∧
    (∀ e ∈ ceSorted predict passages, 0 ≤ e.2.1 ∧ e.2.1 ≤ 1) ∧
    rerank_with_cross_encoder predict n passages
      = ((ceSorted predict passages).map (fun a => a.2.2)).take n ∧
    (rerank_with_cross_encoder predict n passages).length = min n passages.length := by
  refine ⟨ceSorted_perm predict passages, ceSorted_pairwise predict passages, ?_, rfl, ?_⟩
  · intro e he
    have he' := (ceSorted_perm predict passages).mem_iff.mp he
    have he2 := List.snd_mem_of_mem_enum he'
    obtain ⟨p, _, hp⟩ := List.mem_map.mp he2
    have : e.2.1 = sigmoid (predict p.content) := by rw [← hp]
    rw [this]
    exact sigmoid_mem _
  · rw [rerank_with_cross_encoder, List.length_take, List.length_map,
      (ceSorted_perm predict passages).length_eq, List.enum_length, List.length_map]

/-! ### Orchestrator stage lemmas -/

theorem rerank_to_periphery_perm (l : List Document) :
    List.Perm (rerank_to_periphery l) l := by
  have h1 : List.Perm (everyOther l ++ (everyOther (l.drop 1)).reverse)
      (everyOther l ++ everyOther (l.drop 1)) :=
    List.Perm.append_left _ (List.reverse_perm _)
  exact h1.trans (everyOther_append_perm l)

theorem dedupPassages_docId_nodup (l : List Document) :
    ((dedupPassages l).map Document.docId).Nodup :=
  pyDictValues_keyed_nodup Document.docId l

theorem grcCollect_docId_nodup (cfg : Config) (env : Env) (vdb : VecDB)
    (query : String) (query_proxies : List String) (m : ℕ) :
    ((grcCollect cfg env vdb query query_proxies m).map Document.docId).Nodup :=
  dedupPassages_docId_nodup _

theorem add_context_window_map_docId (cfg : Config) (vecdb : Option VecDB)
    (ds : List (Document × ℚ)) :
    (add_context_window cfg vecdb ds).map (fun p => p.1.docId)
      = ds.map (fun p => p.1.docId) := by
  cases vecdb with
  | none => rfl
  | some v =>
    simp only [add_context_window]
    by_cases hn : cfg.n_neighbor_chunks = 0
    · rw [if_pos hn]
    · rw [if_neg hn]
      cases ds with
      | nil => rfl
      | cons hd tl =>
        cases hd with
        | mk d s =>
          by_cases hf : d.extraFields.isEmpty
          · simp only [hf, if_true]
            unfold vecdbCtxWindow
            rw [List.map_map]
            rfl
          · simp [hf]

theorem range_map_getD (d : Document) :
    ∀ (l : List Document), (List.range l.length).map (fun i => l.getD i d) = l
  | [] => rfl
  | a :: t => by
    rw [List.length_cons, List.range_succ_eq_map, List.map_cons, List.map_map]
    have h0 : (a :: t).getD 0 d = a := rfl
    rw [h0]
    congr 1
    have hcomp : ((fun i => (a :: t).getD i d) ∘ Nat.succ) = fun i => t.getD i d := by
      funext i
      rfl
    rw [hcomp]
    exact range_map_getD d t

theorem diversityOrder_split (v : VecDB) (passages : List Document) :
    ∃ tail, diversityOrder v passages = 0 :: tail ∧
      List.Perm tail ((List.range passages.length).drop 1) := by
  obtain ⟨tail, heq, hperm⟩ := selectDiverse_spec (simOf v passages)
    (passages.length - 1) ((List.range passages.length).drop 1) [0]
    (by rw [List.length_drop, List.length_range])
  exact ⟨tail, heq, hperm⟩

theorem diversityOrder_perm (v : VecDB) (passages : List Document)
    (hne : passages ≠ []) :
    List.Perm (diversityOrder v passages) (List.range passages.length) := by
  obtain ⟨tail, heq, hperm⟩ := diversityOrder_split v passages
  rw [heq]
  have hsplit : (0 : ℕ) :: (List.range passages.length).drop 1
      = List.range passages.length := by
    cases passages with
    | nil => exact absurd rfl hne
    | cons p0 rest =>
      rw [List.length_cons, List.range_succ_eq_map]
      rfl
  have hstep : List.Perm ((0 : ℕ) :: tail)
      ((0 : ℕ) :: (List.range passages.length).drop 1) := hperm.cons 0
  rw [← hsplit]
  exact hstep

theorem rerank_with_diversity_perm (vecdb : Option VecDB) (passages out : List Document)
    (warned : Bool) (h : rerank_with_diversity vecdb passages = some (out, warned)) :
    List.Perm out passages := by
  unfold rerank_with_diversity at h
  cases vecdb with
  | none =>
    simp only [Option.some.injEq, Prod.mk.injEq] at h
    rw [← h.1]
  | some v =>
    cases passages with
    | nil => simp at h
    | cons p0 rest =>
      simp only [Option.some.injEq, Prod.mk.injEq] at h
      rw [← h.1]
      have horder := (diversityOrder_perm v (p0 :: rest) (by simp)).map
        (fun i => (p0 :: rest).getD i default)
      rw [range_map_getD default (p0 :: rest)] at horder
      exact horder

theorem grcWithCtx_map_docId (cfg : Config) (env : Env) (passages : List Document) :
    (grcWithCtx cfg env passages).map Document.docId = passages.map Document.docId := by
  unfold grcWithCtx
  rw [List.map_map]
  have h2 : (Document.docId ∘ (Prod.fst : Document × ℚ → Document))
      = fun p : Document × ℚ => p.1.docId := rfl
  rw [h2, add_context_window_map_docId cfg env.vecdb, List.map_map]
  rfl

theorem grcReranked_docId_nodup (cfg : Config) (env : Env) (query : String)
    (passages : List Document) (hnd : (passages.map Document.docId).Nodup) :
    ((grcReranked cfg env query passages).map Document.docId).Nodup := by
  have hndctx : ((grcWithCtx cfg env passages).map Document.docId).Nodup := by
    rw [grcWithCtx_map_docId]
    exact hnd
  unfold grcReranked
  by_cases hce : cfg.cross_encoder_reranking_model ≠ ""
  · rw [if_pos hce]
    have hperm := (ceSorted_output_perm (env.cePredict query)
      (grcWithCtx cfg env passages)).map Document.docId
    have hndsorted : (((ceSorted (env.cePredict query) (grcWithCtx cfg env passages)).map
        (fun a => a.2.2)).map Document.docId).Nodup :=
      hperm.nodup_iff.mpr hndctx
    rw [rerank_with_cross_encoder, ← List.map_take]
    exact hndsorted.sublist (((List.take_sublist _ _).map _).map _)
  · rw [if_neg hce]
    exact hndctx

theorem grcPost_docId_nodup (cfg : Config) (env : Env) (query : String)
    (passages out : List Document)
    (hnd : (passages.map Document.docId).Nodup)
    (h : grcPost cfg env query passages = Except.ok out) :
    (out.map Document.docId).Nodup := by
  have hndL2 := grcReranked_docId_nodup cfg env query passages hnd
  unfold grcPost at h
  cases hdiv : (if cfg.rerank_diversity = true then
      rerank_with_diversity env.vecdb (grcReranked cfg env query passages)
    else some (grcReranked cfg env query passages, false)) with
  | none => rw [hdiv] at h; cases h
  | some pr =>
    rw [hdiv] at h
    cases pr with
    | mk ps warned =>
      simp only [Except.ok.injEq] at h
      have hpsperm : List.Perm ps (grcReranked cfg env query passages) := by
        by_cases hdv : cfg.rerank_diversity
        · rw [if_pos (by rw [hdv])] at hdiv
          exact rerank_with_diversity_perm env.vecdb _ ps warned hdiv
        · rw [if_neg (by rw [Bool.not_eq_true]; exact Bool.not_eq_true _ ▸ hdv)] at hdiv
          simp only [Option.some.injEq, Prod.mk.injEq] at hdiv
          rw [hdiv.1]
      have hndps : (ps.map Document.docId).Nodup :=
        ((hpsperm.map Document.docId).nodup_iff).mpr hndL2
      rw [← h]
      by_cases hper : cfg.rerank_periphery
      · rw [if_pos hper]
        exact (((rerank_to_periphery_perm ps).map Document.docId).nodup_iff).mpr hndps
      · rw [if_neg hper]
        exact hndps

theorem mergeSemanticHits_lastWriteWins (hits : List (Document × ℚ)) (k : String) :
    (mergeSemanticHits hits).filter (fun ds => ds.1.docId = k)
      = ((hits.filter (fun ds => ds.1.docId = k)).getLast?).elim [] (fun p => [p]) := by
  have hkeyed : ∀ p ∈ pyDictOfList (hits.map (fun ds => (ds.1.docId, ds))),
      p.1 = p.2.1.docId := by
    refine pyDict_keyed (fun ds : Document × ℚ => ds.1.docId) _ [] (by simp) ?_
    intro p hp
    obtain ⟨v, _, hv⟩ := List.mem_map.mp hp
    subst hv
    rfl
  unfold mergeSemanticHits pyDictValues
  rw [List.filter_map]
  have hcongr : (pyDictOfList (hits.map (fun ds => (ds.1.docId, ds)))).filter
      ((fun ds : Document × ℚ => decide (ds.1.docId = k)) ∘ Prod.snd)
      = (pyDictOfList (hits.map (fun ds => (ds.1.docId, ds)))).filter
          (fun p => p.1 = k) := by
    apply List.filter_congr
    intro p hp
    have hpk := hkeyed p hp
    simp only [Function.comp_apply]
    rw [← hpk]
  rw [hcongr, pyDictOfList_filter, List.filter_map]
  have hcomp : ((fun p : String × (Document × ℚ) => decide (p.1 = k))
      ∘ (fun ds : Document × ℚ => (ds.1.docId, ds)))
      = fun ds : Document × ℚ => decide (ds.1.docId = k) := rfl
  rw [hcomp, List.getLast?_map]
  cases (hits.filter (fun ds => decide (ds.1.docId = k))).getLast? with
  | none => rfl
  | some x => rfl

/-- C1. On every successful run, `get_relevant_chunks` returns at most
one passage per document id, and the merge of the semantic hits
(line 1088) keeps, for each recurring id, exactly the last
(document, score) pair encountered. -/
theorem C1_orchestrator_dedup :
    (∀ (cfg : Config) (env : Env) (query : String) (query_proxies : List String)
        (out : List Document),
        get_relevant_chunks cfg env query query_proxies = Except.ok out →
        (out.map Document.docId).Nodup) ∧
    (∀ (hits : List (Document × ℚ)) (k : String),
        (mergeSemanticHits hits).filter (fun ds => ds.1.docId = k)
          = ((hits.filter (fun ds => ds.1.docId = k)).getLast?).elim []
              (fun p => [p])) := by
  constructor
  · intro cfg env query query_proxies out h
    unfold get_relevant_chunks at h
    cases hv : env.vecdb with
    | none => rw [hv] at h; cases h
    | some vdb =>
      rw [hv] at h
      have h' : (if (grcCollect cfg env vdb query query_proxies
          (if cfg.cross_encoder_reranking_model = "" then 1 else 3)).isEmpty = true
          then Except.ok ([] : List Document)
          else grcPost cfg env query (grcCollect cfg env vdb query query_proxies
            (if cfg.cross_encoder_reranking_model = "" then 1 else 3)))
          = Except.ok out := h
      by_cases hempty : (grcCollect cfg env vdb query query_proxies
          (if cfg.cross_encoder_reranking_model = "" then 1 else 3)).isEmpty = true
      · rw [if_pos hempty] at h'
        cases h'
        simp
      · rw [if_neg hempty] at h'
        exact grcPost_docId_nodup cfg env query _ out
          (grcCollect_docId_nodup cfg env vdb query query_proxies _) h'
  · exact mergeSemanticHits_lastWriteWins

theorem diversityOrder_greedy (v : VecDB) (passages : List Document) :
    ∀ k j, 1 ≤ k → k ≤ j → j < (diversityOrder v passages).length →
      avgSimilarityToResult (simOf v passages) ((diversityOrder v passages).getD k 0)
          ((diversityOrder v passages).take k)
        ≤ avgSimilarityToResult (simOf v passages) ((diversityOrder v passages).getD j 0)
          ((diversityOrder v passages).take k) := by
  intro k j hk hkj hj
  exact selectDiverse_greedy (simOf v passages) (passages.length - 1)
    ((List.range passages.length).drop 1) [0]
    (by rw [List.length_drop, List.length_range]) k (by simpa using hk) j hkj hj

/-- C4 (counterexample).  On the empty input list (with a vecdb set),
`rerank_with_diversity` does not return any list at all: `indices.pop(0)`
raises `IndexError`, refuting the claim's "for every input list …
returns a permutation of its input". -/
theorem C4_counterexample :
    ¬ ∃ (out : List Document) (warned : Bool),
        rerank_with_diversity (some exVecDB) [] = some (out, warned) := by
  rintro ⟨out, warned, h⟩
  simp [rerank_with_diversity] at h

/-- C4 (amended: every nonempty input list).  With a vecdb set and a
nonempty input, `rerank_with_diversity` returns a permutation of its
input whose first element is the original first element (index 0 seeds
the selection), and each subsequent element minimizes, among the
passages not yet selected, the average cosine similarity to all
passages already selected. -/
theorem C4_rerank_with_diversity (v : VecDB) (passages : List Document)
    (hne : passages ≠ []) :
    ∃ order : List ℕ,
      rerank_with_diversity (some v) passages
        = some (order.map (fun i => passages.getD i default), false) ∧
      List.Perm (order.map (fun i => passages.getD i default)) passages ∧
      order.headD 0 = 0 ∧
      (order.map (fun i => passages.getD i default)).headD default
        = passages.headD default ∧
      (∀ k j, 1 ≤ k → k ≤ j → j < order.length →
        avgSimilarityToResult (simOf v passages) (order.getD k 0) (order.take k)
          ≤ avgSimilarityToResult (simOf v passages) (order.getD j 0) (order.take k)) := by
  refine ⟨diversityOrder v passages, ?_, ?_, ?_, ?_, diversityOrder_greedy v passages⟩
  · cases passages with
    | nil => exact absurd rfl hne
    | cons p0 rest => rfl
  · have horder := (diversityOrder_perm v passages hne).map
      (fun i => passages.getD i default)
    rw [range_map_getD default passages] at horder
    exact horder
  · obtain ⟨tail, heq, -⟩ := diversityOrder_split v passages
    rw [heq]
    rfl
  · obtain ⟨tail, heq, -⟩ := diversityOrder_split v passages
    rw [heq]
    cases passages with
    | nil => exact absurd rfl hne
    | cons p0 rest => rfl

/-! ### Context window expander theorems (C2) -/

/-- C2 (counterexample).  With expansion enabled, a canonical first
passage and a second passage carrying an extra field, the input is not
returned unchanged: the code inspects only `docs_scores[0][0].__fields__`,
so the presence of extra fields on a later passage does not skip
expansion, refuting "skipped whenever any passage carries extra
fields". -/
theorem C2_counterexample :
    add_context_window exCfgCtx (some exVecDBExpand)
        [(exDoc "A", 0), (exDocExtra "B", 0)]
      ≠ [(exDoc "A", 0), (exDocExtra "B", 0)] := by
  decide

/-- C2 (amended: the field test looks only at the first passage).
`add_context_window` is the identity when `n_neighbor_chunks = 0`; it is
the identity whenever the FIRST passage of the batch carries fields
beyond {content, metadata}; and expansion runs exactly when expansion is
enabled and the first document has only the two canonical fields. -/
theorem C2_add_context_window :
    (∀ (cfg : Config) (vecdb : Option VecDB) (ds : List (Document × ℚ)),
        cfg.n_neighbor_chunks = 0 → add_context_window cfg vecdb ds = ds) ∧
    (∀ (cfg : Config) (vecdb : Option VecDB) (d : Document) (s : ℚ)
        (rest : List (Document × ℚ)), d.extraFields ≠ [] →
        add_context_window cfg vecdb ((d, s) :: rest) = (d, s) :: rest) ∧
    (∀ (cfg : Config) (v : VecDB) (d : Document) (s : ℚ)
        (rest : List (Document × ℚ)),
        cfg.n_neighbor_chunks ≠ 0 → d.extraFields = [] →
        add_context_window cfg (some v) ((d, s) :: rest)
          = vecdbCtxWindow v ((d, s) :: rest) cfg.n_neighbor_chunks) := by
  refine ⟨?_, ?_, ?_⟩
  · intro cfg vecdb ds h
    cases vecdb with
    | none => rfl
    | some v =>
      simp only [add_context_window]
      rw [if_pos h]
  · intro cfg vecdb d s rest h
    cases vecdb with
    | none => rfl
    | some v =>
      simp only [add_context_window]
      by_cases hn : cfg.n_neighbor_chunks = 0
      · rw [if_pos hn]
      · rw [if_neg hn]
        have hne : d.extraFields.isEmpty = false := by
          cases hd : d.extraFields with
          | nil => exact absurd hd h
          | cons x xs => rfl
        simp [hne]
  · intro cfg v d s rest hn hf
    simp only [add_context_window]
    rw [if_neg hn]
    have : d.extraFields.isEmpty = true := by rw [hf]; rfl
    simp [this]

/-- C2 (witness): a concrete run of the expansion branch. -/
theorem C2_witness :
    exCfgCtx.n_neighbor_chunks ≠ 0 ∧ (exDoc "A").extraFields = [] ∧
    add_context_window exCfgCtx (some exVecDBExpand) [(exDoc "A", 0)]
      = vecdbCtxWindow exVecDBExpand [(exDoc "A", 0)] exCfgCtx.n_neighbor_chunks :=
  ⟨by decide, rfl,
    C2_add_context_window.2.2 exCfgCtx exVecDBExpand (exDoc "A") 0 [] (by decide) rfl⟩

/-! ### Matcher theorems (C6) -/

/-- C6 (counterexample).  With the chunk corpus present but empty
(`chunked_docs == []`, not `None`), `get_fuzzy_matches` does not take the
warning path: the code only checks `is None` here, so the claimed
"returns the empty list with a logged warning" fails on the warning
part. -/
theorem C6_counterexample :
    get_fuzzy_matches exEnvEmptyCorpus exCfg "q" 1 ≠ ([], true) := by
  decide

/-- C6 (amended).  `get_similar_chunks_bm25` returns `[]` with a warning
whenever either corpus is missing or empty; `get_fuzzy_matches` returns
`[]` with a warning only when a corpus is missing (`None`), while for an
empty-list corpus it calls the external matcher (which yields no matches
on an empty corpus) and returns `[]` without a warning; neither raises. -/
theorem C6_matchers_empty_corpus :
    (∀ (env : Env) (cfg : Config) (q : String) (m : ℕ),
        (env.chunked_docs = none ∨ env.chunked_docs = some []
          ∨ env.chunked_docs_clean = none ∨ env.chunked_docs_clean = some []) →
        get_similar_chunks_bm25 env cfg q m = ([], true)) ∧
    (∀ (env : Env) (cfg : Config) (q : String) (m : ℕ),
        (env.chunked_docs = none ∨ env.chunked_docs_clean = none) →
        get_fuzzy_matches env cfg q m = ([], true)) ∧
    (∀ (env : Env) (cfg : Config) (q : String) (m : ℕ),
        env.chunked_docs = some [] → env.chunked_docs_clean = some [] →
        (∀ q' k wb wa, env.fuzzy q' [] [] k wb wa = []) →
        get_fuzzy_matches env cfg q m = ([], false)) := by
  refine ⟨?_, ?_, ?_⟩
  · intro env cfg q m h
    rcases h with h | h | h | h
    · simp [get_similar_chunks_bm25, h]
    · simp [get_similar_chunks_bm25, h]
    · cases hcd : env.chunked_docs with
      | none => simp [get_similar_chunks_bm25, hcd]
      | some cd =>
        by_cases hl : cd.length = 0
        · simp [get_similar_chunks_bm25, hcd, hl]
        · simp [get_similar_chunks_bm25, hcd, hl, h]
    · cases hcd : env.chunked_docs with
      | none => simp [get_similar_chunks_bm25, hcd]
      | some cd =>
        by_cases hl : cd.length = 0
        · simp [get_similar_chunks_bm25, hcd, hl]
        · simp [get_similar_chunks_bm25, hcd, hl, h]
  · intro env cfg q m h
    rcases h with h | h
    · simp [get_fuzzy_matches, h]
    · cases hcd : env.chunked_docs with
      | none => simp [get_fuzzy_matches, hcd]
      | some cd => simp [get_fuzzy_matches, hcd, h]
  · intro env cfg q m hd hdc hfz
    simp [get_fuzzy_matches, hd, hdc, hfz]

/-- C6 (witness): a concrete empty-list-corpus call of the fuzzy
matcher. -/
theorem C6_witness :
    exEnvEmptyCorpus.chunked_docs = some [] ∧
    exEnvEmptyCorpus.chunked_docs_clean = some [] ∧
    get_fuzzy_matches exEnvEmptyCorpus exCfg "q" 1 = ([], false) :=
  ⟨rfl, rfl,
    C6_matchers_empty_corpus.2.2 exEnvEmptyCorpus exCfg "q" 1 rfl rfl
      (fun _ _ _ _ => rfl)⟩

/-! ### Answer synthesis driver theorem (C7) -/

/-- C7. When retrieval/extraction yields zero surviving extracts,
`answer_from_docs` returns the fixed `NO_ANSWER` sentinel response
without making the answer-synthesis LLM call (the `Bool` component
records whether that call was made). -/
theorem C7_answer_from_docs (cfg : Config) (llmSet : Bool)
    (synthesize : List Document → ChatDocument) (extracts : List Document)
    (h : extracts = []) :
    answer_from_docs cfg llmSet extracts synthesize
      = Except.ok (⟨NO_ANSWER, "None"⟩, false) := by
  subst h
  rfl

/-- C7 (witness): a concrete zero-extract run. -/
theorem C7_witness :
    (([] : List Document) = []) ∧
    answer_from_docs exCfg true [] (fun _ => ⟨"ans", "src"⟩)
      = Except.ok (⟨NO_ANSWER, "None"⟩, false) :=
  ⟨rfl, C7_answer_from_docs exCfg true (fun _ => ⟨"ans", "src"⟩) [] rfl⟩

/-! ### Answer parsing theorems (C8) -/

theorem isPrefixOf_append_self :
    ∀ (s t : List Char), s.isPrefixOf (s ++ t) = true
  | [], t => by simp [List.isPrefixOf]
  | c :: s', t => by
    show (c == c && s'.isPrefixOf (s' ++ t)) = true
    rw [isPrefixOf_append_self s' t, beq_self_eq_true]
    rfl

/-- Lemma: `findSplit` splits at the first occurrence of the separator: if the
separator is a prefix at position `b.length` of `b ++ sep ++ a` and at no
earlier position, the split is `(b, a)`. -/
theorem findSplit_append (sep : List Char) (hsep : sep ≠ []) :
    ∀ (b a : List Char),
      (∀ i, i < b.length → sep.isPrefixOf ((b ++ sep ++ a).drop i) = false) →
      findSplit sep (b ++ sep ++ a) = some (b, a)
  | [], a, _ => by
    cases hs : sep with
    | nil => exact absurd hs hsep
    | cons c s' =>
      subst hs
      show findSplit (c :: s') ([] ++ (c :: s') ++ a) = some ([], a)
      rw [List.nil_append, List.cons_append]
      show (if (c :: s').isPrefixOf (c :: (s' ++ a)) = true
          then some (([] : List Char), (c :: (s' ++ a)).drop (c :: s').length)
          else
            match findSplit (c :: s') (s' ++ a) with
            | some (b, a) => some (c :: b, a)
            | none => none) = some ([], a)
      have hp : (c :: s').isPrefixOf (c :: (s' ++ a)) = true :=
        isPrefixOf_append_self (c :: s') a
      have hd : (c :: (s' ++ a)).drop (c :: s').length = a := List.drop_left (c :: s') a
      rw [hp, if_pos rfl, hd]
  | c :: b', a, hocc => by
    have h0 : sep.isPrefixOf (c :: (b' ++ sep ++ a)) = false := by
      have := hocc 0 (by simp)
      simpa using this
    show findSplit sep (c :: (b' ++ sep ++ a)) = some (c :: b', a)
    have hih := findSplit_append sep hsep b' a (by
      intro i hi
      have := hocc (i + 1) (by simp only [List.length_cons]; omega)
      simpa using this)
    show (if sep.isPrefixOf (c :: (b' ++ sep ++ a)) = true
        then some (([] : List Char), (c :: (b' ++ sep ++ a)).drop sep.length)
        else
          match findSplit sep (b' ++ sep ++ a) with
          | some (b, a) => some (c :: b, a)
          | none => none) = some (c :: b', a)
    rw [h0]
    simp only [Bool.false_eq_true, if_false, hih]

/-- C8. `get_summary_answer` parsing: a response that starts with the
literal token `SOURCE` is used as both content and source; otherwise the
response is split at the first occurrence of `SOURCE:` with content the
stripped text before and source the stripped text after; and the claim's
concrete response parses to content `The answer is X.` and source
`doc1.pdf`. -/
theorem C8_get_summary_answer_parse :
    (∀ s : List Char, sourceTok.isPrefixOf s = true → parseFinalAnswer s = (s, s)) ∧
    (∀ b a : List Char,
        sourceTok.isPrefixOf (b ++ sourceColon ++ a) = false →
        (∀ i, i < b.length →
          sourceColon.isPrefixOf ((b ++ sourceColon ++ a).drop i) = false) →
        parseFinalAnswer (b ++ sourceColon ++ a) = (strip b, strip a)) ∧
    parseSummaryResponse ("The answer is X.\nSOURCE: doc1.pdf".toList)
      = ("The answer is X.".toList, "doc1.pdf".toList) := by
  refine ⟨?_, ?_, by decide⟩
  · intro s h
    unfold parseFinalAnswer
    rw [h]
    rfl
  · intro b a hpre hocc
    unfold parseFinalAnswer
    rw [hpre]
    simp only [Bool.false_eq_true, if_false]
    rw [findSplit_append sourceColon (by decide) b a hocc]

/-- C8 (witness): the split case applied at the claim's concrete
response. -/
theorem C8_witness :
    (sourceTok.isPrefixOf
        ("The answer is X.\n".toList ++ sourceColon ++ " doc1.pdf".toList) = false) ∧
    (∀ i, i < ("The answer is X.\n".toList).length →
        sourceColon.isPrefixOf
          (("The answer is X.\n".toList ++ sourceColon ++ " doc1.pdf".toList).drop i)
          = false) ∧
    parseFinalAnswer ("The answer is X.\n".toList ++ sourceColon ++ " doc1.pdf".toList)
      = (strip "The answer is X.\n".toList, strip " doc1.pdf".toList) :=
  ⟨by decide, by decide,
    C8_get_summary_answer_parse.2.1 "The answer is X.\n".toList " doc1.pdf".toList
      (by decide) (by decide)⟩

/-! ### Verbatim extractor theorem (C9) -/

/-- C9. Every passage surviving verbatim extraction (result not the
`NO_ANSWER` sentinel and not empty) yields a value-copy in which only
`content` is replaced by the extract; the metadata and every extra field
are preserved unchanged, and every output document arises this way (the
source passages are never mutated: the embedding is pure and the output
documents are fresh copies). -/
theorem C9_get_verbatim_extracts (passages : List Document) (extracts : List String) :
    (∀ (p : Document) (e : String), (p, e) ∈ passages.zip extracts →
        e ≠ NO_ANSWER → e.length ≠ 0 →
        (⟨e, p.metadata, p.extraFields⟩ : Document)
          ∈ get_verbatim_extracts passages extracts) ∧
    (∀ d ∈ get_verbatim_extracts passages extracts,
        ∃ (p : Document) (e : String), (p, e) ∈ passages.zip extracts ∧
          e ≠ NO_ANSWER ∧ e.length ≠ 0 ∧
          d.content = e ∧ d.metadata = p.metadata ∧ d.extraFields = p.extraFields) := by
  constructor
  · intro p e hmem hne hlen
    apply List.mem_filterMap.mpr
    refine ⟨(p, e), hmem, ?_⟩
    rw [if_neg (by push_neg; exact ⟨hne, hlen⟩)]
  · intro d hd
    obtain ⟨⟨p, e⟩, hmem, hsome⟩ := List.mem_filterMap.mp hd
    by_cases hc : e = NO_ANSWER ∨ e.length = 0
    · rw [if_pos hc] at hsome
      cases hsome
    · rw [if_neg hc] at hsome
      push_neg at hc
      refine ⟨p, e, hmem, hc.1, hc.2, ?_, ?_, ?_⟩ <;>
        simp only [Option.some.injEq] at hsome <;> rw [← hsome]

/-- C9 (witness): a concrete surviving extraction. -/
theorem C9_witness :
    ((exDoc "A", "relevant span") ∈ [exDoc "A"].zip ["relevant span"]) ∧
    ("relevant span" ≠ NO_ANSWER) ∧ ("relevant span".length ≠ 0) ∧
    (⟨"relevant span", (exDoc "A").metadata, (exDoc "A").extraFields⟩ : Document)
      ∈ get_verbatim_extracts [exDoc "A"] ["relevant span"] :=
  ⟨List.Mem.head _, by decide, by decide,
    (C9_get_verbatim_extracts [exDoc "A"] ["relevant span"]).1 (exDoc "A")
      "relevant span" (List.Mem.head _) (by decide) (by decide)⟩

/-! ### Missing-vecdb behavior (C10) -/

/-- C10 (counterexample).  With no vecdb configured, neither
`rerank_with_diversity` nor `add_context_window` raises: the former
returns its input with a logged warning, the latter silently returns its
input, refuting "raises an error immediately at the call site … in
particular … rerank_with_diversity, and add_context_window". -/
theorem C10_counterexample :
    rerank_with_diversity none [exDoc "A"] = some ([exDoc "A"], true) ∧
    add_context_window exCfgCtx none [(exDoc "A", 0)] = [(exDoc "A", 0)] :=
  ⟨rfl, rfl⟩

/-- C10 (amended).  Only `get_relevant_chunks` (and the call sites that
reach it) raises `ValueError` when no vecdb is configured;
`rerank_with_diversity` instead falls back to returning its input with a
logged warning, and `add_context_window` silently returns its input. -/
theorem C10_vecdb_errors :
    (∀ (cfg : Config) (env : Env) (query : String) (proxies : List String),
        env.vecdb = none →
        get_relevant_chunks cfg env query proxies = Except.error "VecDB not set") ∧
    (∀ passages : List Document,
        rerank_with_diversity none passages = some (passages, true)) ∧
    (∀ (cfg : Config) (ds : List (Document × ℚ)),
        add_context_window cfg none ds = ds) := by
  refine ⟨?_, fun _ => rfl, fun _ _ => rfl⟩
  intro cfg env query proxies h
  unfold get_relevant_chunks
  rw [h]

/-- C10 (witness): a concrete missing-vecdb orchestrator call. -/
theorem C10_witness :
    exEnvNoVecdb.vecdb = none ∧
    get_relevant_chunks exCfg exEnvNoVecdb "q" [] = Except.error "VecDB not set" :=
  ⟨rfl, C10_vecdb_errors.1 exCfg exEnvNoVecdb "q" [] rfl⟩

/-- C1 (witness): a concrete run with a duplicated semantic id; the
surviving passage is the later hit, and the output ids are distinct. -/
theorem C1_witness :
    get_relevant_chunks exCfg exEnvDup "q" [] = Except.ok [exDocDup] ∧
    (([exDocDup] : List Document).map Document.docId).Nodup :=
  ⟨by rfl, C1_orchestrator_dedup.1 exCfg exEnvDup "q" [] [exDocDup] (by rfl)⟩

/-- C4 (witness): the amended diversity theorem applied to a concrete
two-passage list. -/
theorem C4_witness :
    ([exDoc "A", exDoc "B"] ≠ ([] : List Document)) ∧
    ∃ order : List ℕ,
      rerank_with_diversity (some exVecDB) [exDoc "A", exDoc "B"]
        = some (order.map (fun i => [exDoc "A", exDoc "B"].getD i default), false) ∧
      List.Perm (order.map (fun i => [exDoc "A", exDoc "B"].getD i default))
        [exDoc "A", exDoc "B"] ∧
      order.headD 0 = 0 ∧
      (order.map (fun i => [exDoc "A", exDoc "B"].getD i default)).headD default
        = ([exDoc "A", exDoc "B"] : List Document).headD default ∧
      (∀ k j, 1 ≤ k → k ≤ j → j < order.length →
        avgSimilarityToResult (simOf exVecDB [exDoc "A", exDoc "B"])
            (order.getD k 0) (order.take k)
          ≤ avgSimilarityToResult (simOf exVecDB [exDoc "A", exDoc "B"])
            (order.getD j 0) (order.take k)) :=
  ⟨by decide, C4_rerank_with_diversity exVecDB [exDoc "A", exDoc "B"] (by decide)⟩

end DocChat
